import Mathlib

/-
Verification of the monitor_cripto repository: a shallow embedding of its
record store (storage.py), chart renderer (graphics.py / monitor_cripto.py)
and sampling loop (monitor_cripto.py), with theorems settling the frozen
claims about the specification.

Modelling conventions:
- CSV rows are modelled as lists of fields (List String); the csv module
  round-trips arbitrary field strings, so the encode/decode layer of the
  csv library is abstracted away as the identity on field lists.
- A file state is Option (List Row): none models a path that does not
  exist, some rows models an existing file holding those rows (some []
  is an existing zero-byte file).
- Python datetime values are modelled at second precision (the repository
  writes and its tests read timestamps of exactly that shape); prices are
  modelled as rationals, standing for the exact decimal values the code
  formats and parses (binary floating point representation error and its
  tie-breaking are outside the model and outside every claim).
- Functions that Python makes total by catching exceptions are modelled
  with Option: none models a caught, row-skipping exception.
-/

namespace MonitorCripto

/-- One decimal digit rendered as a character (codepoint 48 + n), the unit
of all zero-padded decimal rendering done by isoformat and price formatting. -/
def digitChar10 (n : Nat) : Char := Char.ofNat (48 + n)

/-- Reads one character back as a decimal digit; none when the character is
not a decimal digit. -/
def charToDigit (c : Char) : Option Nat :=
  if 48 ≤ c.toNat ∧ c.toNat ≤ 57 then some (c.toNat - 48) else none

/-- Two-digit zero-padded decimal rendering, for n < 100: the month, day,
hour, minute and second fields of isoformat and the cents of a price. -/
def pad2 (n : Nat) : List Char := [digitChar10 (n / 10), digitChar10 (n % 10)]

/-- Four-digit zero-padded decimal rendering of the year field, for
n < 10000; split as two two-digit halves (equal to the 04d rendering). -/
def pad4 (n : Nat) : List Char := pad2 (n / 100) ++ pad2 (n % 100)

/-- Decimal rendering of a natural number, most significant digit first
(the str rendering of a Python int). -/
def natChars (n : Nat) : List Char :=
  if n = 0 then ['0'] else (Nat.digits 10 n).reverse.map digitChar10

/-- Numeric value of a most-significant-first digit string; none when some
character is not a digit. The empty string evaluates to 0; callers reject
emptiness where Python float would. -/
def digitsVal (cs : List Char) : Option Nat :=
  cs.foldl (fun acc c => acc.bind fun n => (charToDigit c).map fun d => 10 * n + d)
    (some 0)

/-- A Python datetime at second precision: the shape the repository writes
via isoformat and reads back via fromisoformat. -/
structure DateTime where
  year : Nat
  month : Nat
  day : Nat
  hour : Nat
  minute : Nat
  second : Nat
deriving DecidableEq, Repr

/-- Gregorian leap year test, as Python datetime uses for date validation. -/
def isLeap (y : Nat) : Bool := (y % 4 == 0 && y % 100 != 0) || y % 400 == 0

/-- Number of days in a month, used by datetime to validate the day field. -/
def daysInMonth (y m : Nat) : Nat :=
  if m = 2 then (if isLeap y then 29 else 28)
  else if m = 4 ∨ m = 6 ∨ m = 9 ∨ m = 11 then 30
  else 31

/-- The field ranges Python datetime enforces at construction; the valid
Observations of the specification carry timestamps in these ranges. -/
def DateTime.valid (t : DateTime) : Prop :=
  1 ≤ t.year ∧ t.year ≤ 9999 ∧ 1 ≤ t.month ∧ t.month ≤ 12 ∧
    1 ≤ t.day ∧ t.day ≤ daysInMonth t.year t.month ∧
    t.hour ≤ 23 ∧ t.minute ≤ 59 ∧ t.second ≤ 59

instance (t : DateTime) : Decidable t.valid := by
  unfold DateTime.valid; infer_instance

/-- Character list of datetime.isoformat for a second-precision value:
four-digit year, two-digit month, day, hour, minute, second, with the
standard separators. -/
def DateTime.isoformatChars (t : DateTime) : List Char :=
  pad4 t.year ++ '-' :: pad2 t.month ++ '-' :: pad2 t.day ++
    'T' :: pad2 t.hour ++ ':' :: pad2 t.minute ++ ':' :: pad2 t.second

/-- Model of datetime.isoformat (microsecond 0, no timezone offset). -/
def DateTime.isoformat (t : DateTime) : String := String.mk t.isoformatChars

/-- Two-character field value inside the timestamp grammar. -/
def val2 (c1 c2 : Char) : Option Nat := do
  let a ← charToDigit c1
  let b ← charToDigit c2
  pure (10 * a + b)

/-- Four-character year value inside the timestamp grammar. -/
def val4 (c1 c2 c3 c4 : Char) : Option Nat := do
  let a ← val2 c1 c2
  let b ← val2 c3 c4
  pure (100 * a + b)

/-- Model of datetime.fromisoformat on the full date-and-time grammar the
store produces: exactly 19 characters, dashes and colons fixed, any single
date-time separator character (as Python accepts), and the constructor
field-range checks. Other grammars Python accepts (date only, fractional
seconds, offsets) never occur in this store and are not modelled. -/
def parseISOChars : List Char → Option DateTime
  | [y1, y2, y3, y4, s1, mo1, mo2, s2, d1, d2, _, h1, h2, c1, mi1, mi2, c2, se1, se2] =>
    if s1 = '-' ∧ s2 = '-' ∧ c1 = ':' ∧ c2 = ':' then do
      let y ← val4 y1 y2 y3 y4
      let mo ← val2 mo1 mo2
      let d ← val2 d1 d2
      let h ← val2 h1 h2
      let mi ← val2 mi1 mi2
      let se ← val2 se1 se2
      let t : DateTime := ⟨y, mo, d, h, mi, se⟩
      if t.valid then some t else none
    else none
  | _ => none

/-- Model of datetime.fromisoformat on strings. -/
def fromisoformat (s : String) : Option DateTime := parseISOChars s.data

/-- The cents value selected by two-decimal formatting of a price: the
nearest hundredth, halves rounded up (the repository only ever formats
values for which any round-half convention agrees). -/
def cents2 (p : ℚ) : Int := ⌊p * 100 + 1 / 2⌋

/-- The two-decimal value a price becomes once stored. -/
def round2 (p : ℚ) : ℚ := (cents2 p : ℚ) / 100

/-- Decimal rendering of a magnitude in cents as digits, dot, two digits. -/
def centsChars (c : Nat) : List Char := natChars (c / 100) ++ '.' :: pad2 (c % 100)

/-- Model of the two-decimal price formatting the writer applies. -/
def formatPrice2 (p : ℚ) : String :=
  if cents2 p < 0 then String.mk ('-' :: centsChars (cents2 p).natAbs)
  else String.mk (centsChars (cents2 p).natAbs)

/-- Splits a character list at its first dot: the part before, and the part
after when a dot is present. -/
def splitDot : List Char → List Char × Option (List Char)
  | [] => ([], none)
  | c :: cs =>
    if c = '.' then ([], some cs)
    else
      let r := splitDot cs
      (c :: r.1, r.2)

/-- Unsigned part of Python float parsing on the decimal grammar relevant
to this store: digits with an optional fractional part, at least one digit
somewhere; none on any non-digit character or an empty string. -/
def parseUnsigned (cs : List Char) : Option ℚ :=
  match splitDot cs with
  | (ip, none) => if ip = [] then none else (digitsVal ip).map fun n => (n : ℚ)
  | (ip, some fp) =>
    if ip = [] ∧ fp = [] then none
    else do
      let n ← digitsVal ip
      let f ← digitsVal fp
      pure ((n : ℚ) + (f : ℚ) / (10 : ℚ) ^ fp.length)

/-- Model of Python float applied to a price field: optional sign, then the
unsigned decimal grammar (exponents, infinities and whitespace trimming are
never produced by this store and are not modelled). -/
def parsePrice (s : String) : Option ℚ :=
  match s.data with
  | [] => none
  | c :: cs =>
    if c = '-' then (parseUnsigned cs).map fun q => -q
    else if c = '+' then parseUnsigned cs
    else parseUnsigned (c :: cs)

/-- A CSV record, as its list of fields. -/
abbrev Row := List String

/-- The header row salvar_cotacao writes when it creates the file. -/
def cabecalho : Row := ["data_hora", "moeda", "preco"]

/-- One observation as the repository represents it: a (timestamp, symbol,
price) tuple. -/
abbrev Observacao := DateTime × String × ℚ

/-- The data row salvar_cotacao writes for one observation: isoformat
timestamp, symbol string as is, price formatted to two decimals. -/
def linhaCotacao (horario : DateTime) (moeda : String) (preco : ℚ) : Row :=
  [horario.isoformat, moeda, formatPrice2 preco]

/-- Model of storage.salvar_cotacao: on a path that does not exist the file
is created and the header row is written first; on an existing file the
data row is appended after the existing rows, header untouched. Returns the
file rows after the call. -/
def salvar_cotacao (horario : DateTime) (moeda : String) (preco : ℚ) :
    Option (List Row) → List Row
  | none => [cabecalho, linhaCotacao horario moeda preco]
  | some rows => rows ++ [linhaCotacao horario moeda preco]

/-- The (fieldname, value) pairs csv.DictReader builds for one data row: a
row shorter than the header binds the trailing names to none (the None
restval); fields beyond the header do not occur under a string key. -/
def rowPairs : List String → Row → List (String × Option String)
  | [], _ => []
  | k :: ks, [] => (k, none) :: rowPairs ks []
  | k :: ks, v :: vs => (k, some v) :: rowPairs ks vs

/-- Python dict lookup over those pairs: the last binding of the key wins;
an outer none models a KeyError. -/
def dictLookup (key : String) : List (String × Option String) → Option (Option String)
  | [] => none
  | (k, v) :: rest =>
    match dictLookup key rest with
    | some r => some r
    | none => if k = key then some v else none

/-- The body of the per-row loop of carregar_historico: look up the three
named fields, parse the timestamp with fromisoformat and the price with
float; none models any caught KeyError, TypeError or ValueError, which
skips the row. A None value in the symbol position is also modelled as a
skip (with the header this store writes, a row accepted by the code always
carries a present symbol string, so the two agree on every reachable file). -/
def parseLinha (fieldnames : List String) (row : Row) : Option Observacao := do
  let dh ← dictLookup "data_hora" (rowPairs fieldnames row)
  let mo ← dictLookup "moeda" (rowPairs fieldnames row)
  let pr ← dictLookup "preco" (rowPairs fieldnames row)
  let dhs ← dh
  let horario ← fromisoformat dhs
  let moeda ← mo
  let prs ← pr
  let preco ← parsePrice prs
  pure (horario, moeda, preco)

/-- Model of storage.carregar_historico: a missing path gives the empty
history; otherwise csv.DictReader takes the first row as the field names
and the loop keeps exactly the data rows whose three fields parse, in file
order. -/
def carregar_historico : Option (List Row) → List Observacao
  | none => []
  | some [] => []
  | some (fieldnames :: rows) => rows.filterMap (parseLinha fieldnames)

/-- A sequence of salvar_cotacao calls folded over a file state. -/
def salvarTodas (obs : List Observacao) (estado : Option (List Row)) :
    Option (List Row) :=
  obs.foldl (fun st o => some (salvar_cotacao o.1 o.2.1 o.2.2 st)) estado

/-- The per-symbol series exibir_grafico accumulates into its pontos dict:
the (timestamp, price) pairs of the observations carrying that symbol, in
history order. -/
def pontosDe (moeda : String) (historico : List Observacao) :
    List (DateTime × ℚ) :=
  historico.filterMap fun o => if o.2.1 = moeda then some (o.1, o.2.2) else none

/-- The comparison key of a datetime: its fields, most significant first;
Python compares datetimes lexicographically by these fields. -/
def DateTime.fields (t : DateTime) : List Nat :=
  [t.year, t.month, t.day, t.hour, t.minute, t.second]

/-- Boolean field-lexicographic order on datetimes, the order keyed sorting
uses. -/
def DateTime.leB (a b : DateTime) : Bool := decide (a.fields ≤ b.fields)

/-- Model of sorted with the timestamp key: a stable merge sort under the
timestamp order. -/
def ordenarPorTempo (serie : List (DateTime × ℚ)) : List (DateTime × ℚ) :=
  serie.mergeSort fun x y => DateTime.leB x.1 y.1

/-- Outcome of exibir_grafico: either the no-data message with an immediate
return and no image, or a rendered chart carrying one plotted line per
listed (symbol, series) pair. -/
inductive SaidaGrafico where
  | semDados : SaidaGrafico
  | grafico (linhas : List (String × List (DateTime × ℚ))) : SaidaGrafico
deriving DecidableEq, Repr

/-- Model of exibir_grafico: the pontos dict holds exactly the keys BTC and
ETH, so observations with any other symbol are dropped; when both series
are empty the function prints the no-data message and returns; otherwise it
plots one line per nonempty series, BTC first, each series sorted by
timestamp. -/
def exibir_grafico (historico : List Observacao) : SaidaGrafico :=
  let btc := pontosDe "BTC" historico
  let eth := pontosDe "ETH" historico
  if btc = [] ∧ eth = [] then SaidaGrafico.semDados
  else
    SaidaGrafico.grafico
      ((if btc = [] then [] else [("BTC", ordenarPorTempo btc)]) ++
        (if eth = [] then [] else [("ETH", ordenarPorTempo eth)]))

/-- The plotted lines of a chart outcome; the no-data outcome has none. -/
def linhasDe : SaidaGrafico → List (String × List (DateTime × ℚ))
  | SaidaGrafico.semDados => []
  | SaidaGrafico.grafico linhas => linhas

/-- The externally visible steps of one iteration of iniciar_monitoramento:
reading the clock, fetching the price map, and saving one quotation. -/
inductive Evento where
  | lerRelogio (horario : DateTime) : Evento
  | buscarPrecos (precos : List (String × ℚ)) : Evento
  | salvarEvt (horario : DateTime) (moeda : String) (preco : ℚ) : Evento
deriving DecidableEq, Repr

/-- One cycle of iniciar_monitoramento as its event trace, translated from
the loop body: horario is read from the clock first, then buscar_precos is
called, then each returned (symbol, price) pair is saved with that one
horario value. -/
def cicloMonitoramento (agora : DateTime) (precos : List (String × ℚ)) :
    List Evento :=
  Evento.lerRelogio agora :: Evento.buscarPrecos precos ::
    precos.map fun mp => Evento.salvarEvt agora mp.1 mp.2

/-- Recognises the clock-read event. -/
def Evento.eLeituraRelogio : Evento → Bool
  | Evento.lerRelogio _ => true
  | _ => false

/-- The observation a save event persists, when the event is a save. -/
def Evento.salvo : Evento → Option Observacao
  | Evento.salvarEvt horario moeda preco => some (horario, moeda, preco)
  | _ => none

/-! Digit-level rendering and parsing lemmas. -/

/-- A rendered decimal digit reads back as itself. -/
lemma charToDigit_digitChar10 : ∀ n < 10, charToDigit (digitChar10 n) = some n := by
  decide

/-- A two-digit zero-padded field evaluates back to its value. -/
lemma val2_eval : ∀ n < 100, val2 (digitChar10 (n / 10)) (digitChar10 (n % 10)) = some n := by
  decide

/-- A two-digit zero-padded field parsed as a digit string gives its value. -/
lemma digitsVal_pad2 : ∀ n < 100, digitsVal (pad2 n) = some n := by
  decide

/-- A rendered decimal digit is none of the sign and dot characters. -/
lemma digitChar10_not_special :
    ∀ n < 10, digitChar10 n ≠ '-' ∧ digitChar10 n ≠ '+' ∧ digitChar10 n ≠ '.' := by
  decide

/-- The four-digit year field evaluates back to its value. -/
lemma val4_eval (n : Nat) (h : n < 10000) :
    val4 (digitChar10 (n / 100 / 10)) (digitChar10 (n / 100 % 10))
      (digitChar10 (n % 100 / 10)) (digitChar10 (n % 100 % 10)) = some n := by
  unfold val4
  rw [val2_eval (n / 100) (by omega), val2_eval (n % 100) (by omega)]
  show some (100 * (n / 100) + n % 100) = some n
  congr 1
  omega

/-- Every month fits in 31 days, whatever the year. -/
lemma daysInMonth_le (y m : Nat) : daysInMonth y m ≤ 31 := by
  unfold daysInMonth
  split_ifs <;> omega

/-- Round trip of the timestamp rendering: fromisoformat inverts isoformat
on every datetime in the ranges Python datetime enforces. -/
lemma fromisoformat_isoformat (t : DateTime) (ht : t.valid) :
    fromisoformat t.isoformat = some t := by
  obtain ⟨y, mo, d, h, mi, se⟩ := t
  obtain ⟨hy1, hy2, hm1, hm2, hd1, hd2, hh, hmi, hse⟩ := ht
  dsimp only at hy1 hy2 hm1 hm2 hd1 hd2 hh hmi hse
  have hd31 : d ≤ 31 := le_trans hd2 (daysInMonth_le y mo)
  show parseISOChars (DateTime.isoformatChars ⟨y, mo, d, h, mi, se⟩) = _
  simp only [DateTime.isoformatChars, pad4, pad2, List.cons_append, List.nil_append]
  rw [parseISOChars]
  rw [if_pos (show ('-' : Char) = '-' ∧ ('-' : Char) = '-' ∧ (':' : Char) = ':' ∧
    (':' : Char) = ':' from by decide)]
  simp only [val4_eval y (by omega), val2_eval mo (by omega), val2_eval d (by omega),
    val2_eval h (by omega), val2_eval mi (by omega), val2_eval se (by omega),
    Option.bind_eq_bind, Option.some_bind]
  show (if DateTime.valid ⟨y, mo, d, h, mi, se⟩ then some (⟨y, mo, d, h, mi, se⟩ : DateTime)
      else none) = _
  rw [if_pos (show DateTime.valid ⟨y, mo, d, h, mi, se⟩ from
    ⟨hy1, hy2, hm1, hm2, hd1, hd2, hh, hmi, hse⟩)]

/-! Price rendering and parsing lemmas. -/

/-- Folding the digit-string evaluator over rendered digits computes the
positional value, threading any accumulator. -/
lemma digitsVal_go (l : List Nat) (hl : ∀ d ∈ l, d < 10) : ∀ a : Nat,
    (l.map digitChar10).foldl
        (fun acc c => acc.bind fun n => (charToDigit c).map fun d => 10 * n + d)
        (some a)
      = some (l.foldl (fun x d => 10 * x + d) a) := by
  induction l with
  | nil => intro a; rfl
  | cons d rest ih =>
    intro a
    have hd : d < 10 := hl d (List.mem_cons_self d rest)
    have hrest : ∀ e ∈ rest, e < 10 := fun e he => hl e (List.mem_cons_of_mem d he)
    simp only [List.map_cons, List.foldl_cons, charToDigit_digitChar10 d hd,
      Option.some_bind, Option.map_some]
    exact ih hrest (10 * a + d)

/-- Folding positional accumulation over a reversed digit list evaluates the
little-endian digit value shifted below the accumulator. -/
lemma foldl_reverse_ofDigits (l : List Nat) : ∀ a : Nat,
    l.reverse.foldl (fun x d => 10 * x + d) a = a * 10 ^ l.length + Nat.ofDigits 10 l := by
  induction l with
  | nil => intro a; simp [Nat.ofDigits]
  | cons x xs ih =>
    intro a
    rw [List.reverse_cons, List.foldl_append]
    simp only [List.foldl_cons, List.foldl_nil, ih a, Nat.ofDigits_cons, List.length_cons]
    ring

/-- The decimal rendering of a natural number parses back to it. -/
lemma digitsVal_natChars (n : Nat) : digitsVal (natChars n) = some n := by
  unfold natChars
  by_cases hn : n = 0
  · subst hn; decide
  · rw [if_neg hn]
    unfold digitsVal
    have hlt : ∀ d ∈ (Nat.digits 10 n).reverse, d < 10 := by
      intro d hd
      exact Nat.digits_lt_base (by norm_num) (List.mem_reverse.mp hd)
    rw [digitsVal_go (Nat.digits 10 n).reverse hlt 0]
    rw [foldl_reverse_ofDigits]
    simp [Nat.ofDigits_digits]

/-- The decimal rendering of a natural number is nonempty. -/
lemma natChars_ne_nil (n : Nat) : natChars n ≠ [] := by
  unfold natChars
  by_cases hn : n = 0
  · subst hn; decide
  · rw [if_neg hn]
    simp [Nat.digits_ne_nil_iff_ne_zero.mpr hn]

/-- Every character of a rendered natural number is a decimal digit. -/
lemma natChars_digits (n : Nat) : ∀ c ∈ natChars n, ∃ d, d < 10 ∧ c = digitChar10 d := by
  by_cases hn : n = 0
  · subst hn
    intro c hc
    rw [show natChars 0 = ['0'] from rfl, List.mem_singleton] at hc
    exact ⟨0, by omega, by rw [hc]; decide⟩
  · intro c hc
    rw [natChars, if_neg hn] at hc
    obtain ⟨d, hd, rfl⟩ := List.mem_map.mp hc
    exact ⟨d, Nat.digits_lt_base (by norm_num) (List.mem_reverse.mp hd), rfl⟩

/-- No character of a rendered natural number is a sign or a dot. -/
lemma natChars_not_special (n : Nat) :
    ∀ c ∈ natChars n, c ≠ '-' ∧ c ≠ '+' ∧ c ≠ '.' := by
  intro c hc
  obtain ⟨d, hd, rfl⟩ := natChars_digits n c hc
  exact digitChar10_not_special d hd

/-- Splitting at the dot finds the dot appended after a dot-free part. -/
lemma splitDot_append (l r : List Char) (hl : '.' ∉ l) :
    splitDot (l ++ '.' :: r) = (l, some r) := by
  induction l with
  | nil => simp [splitDot]
  | cons c cs ih =>
    have hc : c ≠ '.' := fun h => hl (h ▸ List.mem_cons_self c cs)
    have hcs : '.' ∉ cs := fun h => hl (List.mem_cons_of_mem c h)
    simp only [List.cons_append, splitDot, if_neg hc, List.append_eq, ih hcs]

/-- The rendered cents string parses back to cents over one hundred. -/
lemma parseUnsigned_centsChars (c : Nat) :
    parseUnsigned (centsChars c) = some ((c : ℚ) / 100) := by
  unfold centsChars parseUnsigned
  have hnodot : '.' ∉ natChars (c / 100) := fun h =>
    (natChars_not_special (c / 100) '.' h).2.2 rfl
  rw [splitDot_append _ _ hnodot]
  dsimp only
  rw [if_neg (fun h => natChars_ne_nil (c / 100) h.1)]
  rw [digitsVal_natChars, digitsVal_pad2 (c % 100) (Nat.mod_lt c (by omega))]
  simp only [Option.some_bind, Option.bind_eq_bind]
  show some _ = some _
  congr 1
  have hsplit : (c : ℚ) = 100 * ((c / 100 : Nat) : ℚ) + ((c % 100 : Nat) : ℚ) := by
    have h : (100 * (c / 100) + c % 100 : ℕ) = c := Nat.div_add_mod c 100
    calc (c : ℚ) = ((100 * (c / 100) + c % 100 : ℕ) : ℚ) := by rw [h]
      _ = 100 * ((c / 100 : ℕ) : ℚ) + ((c % 100 : ℕ) : ℚ) := by push_cast; ring
  rw [show ((pad2 (c % 100)).length) = 2 from rfl]
  rw [hsplit]
  ring

/-- Two-decimal formatting of a nonnegative price parses back to the price
rounded to two decimals. -/
lemma parsePrice_formatPrice2 (p : ℚ) (hp : 0 ≤ p) :
    parsePrice (formatPrice2 p) = some (round2 p) := by
  have hc : 0 ≤ cents2 p := by
    refine Int.le_floor.mpr ?_
    push_cast
    nlinarith
  unfold formatPrice2
  rw [if_neg (by omega)]
  unfold parsePrice
  show (match centsChars (cents2 p).natAbs with
    | [] => none
    | c :: cs =>
      if c = '-' then (parseUnsigned cs).map fun q => -q
      else if c = '+' then parseUnsigned cs
      else parseUnsigned (c :: cs)) = _
  rcases hhead : natChars ((cents2 p).natAbs / 100) with _ | ⟨c0, cs0⟩
  · exact absurd hhead (natChars_ne_nil _)
  · have hc0 : c0 ∈ natChars ((cents2 p).natAbs / 100) := by
      rw [hhead]; exact List.mem_cons_self c0 cs0
    obtain ⟨hm, hpl, _⟩ := natChars_not_special _ c0 hc0
    have hcents : centsChars (cents2 p).natAbs
        = c0 :: (cs0 ++ '.' :: pad2 ((cents2 p).natAbs % 100)) := by
      unfold centsChars
      rw [hhead, List.cons_append]
    rw [hcents]
    dsimp only
    rw [if_neg hm, if_neg hpl]
    rw [← List.cons_append, ← hhead]
    show parseUnsigned (centsChars (cents2 p).natAbs) = _
    rw [parseUnsigned_centsChars]
    congr 1
    unfold round2
    congr 1
    rw [Int.cast_natAbs, abs_of_nonneg hc]

/-! Row-level and store-level lemmas. -/

/-- On the header this store writes, the row loop reduces to parsing the
timestamp and the price around the pass-through symbol. -/
lemma parseLinha_cabecalho (ts m pr : String) :
    parseLinha cabecalho [ts, m, pr]
      = (fromisoformat ts).bind fun horario =>
          (parsePrice pr).bind fun preco => some (horario, m, preco) := rfl

/-- A data row written by salvar_cotacao for a valid timestamp and a
nonnegative price reads back as the observation with the price rounded to
two decimals. -/
lemma parseLinha_linhaCotacao (t : DateTime) (m : String) (p : ℚ)
    (ht : t.valid) (hp : 0 ≤ p) :
    parseLinha cabecalho (linhaCotacao t m p) = some (t, m, round2 p) := by
  show parseLinha cabecalho [t.isoformat, m, formatPrice2 p] = _
  rw [parseLinha_cabecalho, fromisoformat_isoformat t ht, parsePrice_formatPrice2 p hp]
  rfl

/-- The cents of a nonnegative price are nonnegative. -/
lemma cents2_nonneg (p : ℚ) (hp : 0 ≤ p) : 0 ≤ cents2 p := by
  refine Int.le_floor.mpr ?_
  push_cast
  nlinarith

/-- Rounding to two decimals preserves nonnegativity. -/
lemma round2_nonneg (p : ℚ) (hp : 0 ≤ p) : 0 ≤ round2 p := by
  unfold round2
  have := cents2_nonneg p hp
  positivity

/-- Appending over an existing file only adds the encoded rows at the end. -/
lemma salvarTodas_some (obs : List Observacao) : ∀ rows : List Row,
    salvarTodas obs (some rows)
      = some (rows ++ obs.map fun o => linhaCotacao o.1 o.2.1 o.2.2) := by
  induction obs with
  | nil => intro rows; simp [salvarTodas]
  | cons o os ih =>
    intro rows
    show salvarTodas os (some (salvar_cotacao o.1 o.2.1 o.2.2 (some rows))) = _
    show salvarTodas os (some (rows ++ [linhaCotacao o.1 o.2.1 o.2.2])) = _
    rw [ih]
    simp

/-- Appending a nonempty batch over a missing path creates the file with
the header first and the encoded rows after, in order. -/
lemma salvarTodas_fresh (o : Observacao) (os : List Observacao) :
    salvarTodas (o :: os) none
      = some (cabecalho :: (o :: os).map fun x => linhaCotacao x.1 x.2.1 x.2.2) := by
  show salvarTodas os (some (salvar_cotacao o.1 o.2.1 o.2.2 none)) = _
  show salvarTodas os (some [cabecalho, linhaCotacao o.1 o.2.1 o.2.2]) = _
  rw [salvarTodas_some]
  rfl

/-- The number of kept rows is the number of rows whose parse succeeds. -/
lemma length_filterMap_eq_countP {α β : Type} (f : α → Option β) (l : List α) :
    (l.filterMap f).length = l.countP fun a => (f a).isSome := by
  induction l with
  | nil => rfl
  | cons a rest ih =>
    cases hf : f a <;>
      simp [List.filterMap_cons, hf, List.countP_cons, ih]

/-- Keeping the parseable rows first and then parsing changes nothing: the
kept observations come from the parseable rows, in their original order. -/
lemma filterMap_eq_filter_filterMap {α β : Type} (f : α → Option β) (l : List α) :
    l.filterMap f = (l.filter fun a => (f a).isSome).filterMap f := by
  induction l with
  | nil => rfl
  | cons a rest ih =>
    cases hf : f a <;>
      simp [List.filterMap_cons, List.filter_cons, hf, ih]

/-- The timestamp order used for chart series is transitive. -/
lemma leB_trans (a b c : DateTime) (h1 : a.leB b = true) (h2 : b.leB c = true) :
    a.leB c = true := by
  simp only [DateTime.leB, decide_eq_true_eq] at h1 h2 ⊢
  exact le_trans h1 h2

/-- The timestamp order used for chart series is total. -/
lemma leB_total (a b : DateTime) : (a.leB b || b.leB a) = true := by
  simp only [DateTime.leB, Bool.or_eq_true, decide_eq_true_eq]
  exact le_total _ _

/-- An isoformat timestamp always has nineteen characters. -/
lemma isoformat_length (t : DateTime) : t.isoformat.length = 19 := by
  show (DateTime.isoformatChars t).length = 19
  simp [DateTime.isoformatChars, pad4, pad2]

/-- A data row is never the header row: its first field is a nineteen
character timestamp while the header starts with a nine character name. -/
lemma linhaCotacao_ne_cabecalho (t : DateTime) (m : String) (p : ℚ) :
    linhaCotacao t m p ≠ cabecalho := by
  intro h
  have h1 : t.isoformat = "data_hora" := by
    have h0 := congrArg (fun l => l.headD "") h
    simpa [linhaCotacao, cabecalho] using h0
  have h2 := congrArg String.length h1
  rw [isoformat_length t] at h2
  exact absurd h2 (by decide)

/-! Claim theorems. -/

/-- C1: for every valid Observation (timestamp in the datetime ranges,
nonnegative price), loading the store after salvar_cotacao returns a list
containing that observation, timestamp and symbol preserved exactly and the
price preserved to two-decimal precision, whether the call created the file
or appended to the store's own file. -/
theorem c1_round_trip_salvar_carregar (t : DateTime) (moeda : String) (p : ℚ)
    (ht : t.valid) (hp : 0 ≤ p) (estado : Option (List Row))
    (hestado : estado = none ∨ ∃ resto, estado = some (cabecalho :: resto)) :
    (t, moeda, round2 p) ∈ carregar_historico (some (salvar_cotacao t moeda p estado)) := by
  rcases hestado with rfl | ⟨resto, rfl⟩
  · show (t, moeda, round2 p) ∈ [linhaCotacao t moeda p].filterMap (parseLinha cabecalho)
    rw [List.filterMap_cons]
    rw [parseLinha_linhaCotacao t moeda p ht hp]
    exact List.mem_singleton.mpr rfl
  · show (t, moeda, round2 p) ∈
      carregar_historico (some ((cabecalho :: resto) ++ [linhaCotacao t moeda p]))
    rw [List.cons_append]
    show (t, moeda, round2 p) ∈
      (resto ++ [linhaCotacao t moeda p]).filterMap (parseLinha cabecalho)
    rw [List.filterMap_append]
    refine List.mem_append_right _ ?_
    rw [List.filterMap_cons, parseLinha_linhaCotacao t moeda p ht hp]
    exact List.mem_singleton.mpr rfl

/-- Witness for C1 at the specification's example: appending the price
50000.567 with timestamp 2025-01-01T12:00:00 and symbol BTC to a fresh path
reads back as exactly 50000.57. -/
theorem c1_round_trip_salvar_carregar_witness :
    DateTime.valid ⟨2025, 1, 1, 12, 0, 0⟩ ∧ (0 : ℚ) ≤ 50000567 / 1000 ∧
    round2 (50000567 / 1000) = 5000057 / 100 ∧
    ((⟨2025, 1, 1, 12, 0, 0⟩, "BTC", round2 (50000567 / 1000)) : Observacao) ∈
      carregar_historico
        (some (salvar_cotacao ⟨2025, 1, 1, 12, 0, 0⟩ "BTC" (50000567 / 1000) none)) :=
  ⟨by decide, by norm_num, by norm_num [round2, cents2],
    c1_round_trip_salvar_carregar ⟨2025, 1, 1, 12, 0, 0⟩ "BTC" (50000567 / 1000)
      (by decide) (by norm_num) none (Or.inl rfl)⟩

/-- C2: appending a nonempty batch of observations to a missing path yields
the header row exactly once followed by exactly one data row per
observation in append order, and further appends over an existing file
never write the header again. -/
theorem c2_cabecalho_escrito_uma_vez (obs : List Observacao) (hobs : obs ≠ []) :
    salvarTodas obs none
        = some (cabecalho :: obs.map fun o => linhaCotacao o.1 o.2.1 o.2.2) ∧
    (cabecalho :: obs.map fun o => linhaCotacao o.1 o.2.1 o.2.2).count cabecalho = 1 ∧
    (obs.map fun o => linhaCotacao o.1 o.2.1 o.2.2).length = obs.length ∧
    ∀ (mais : List Observacao) (rows : List Row),
      salvarTodas mais (some rows)
        = some (rows ++ mais.map fun o => linhaCotacao o.1 o.2.1 o.2.2) := by
  obtain ⟨o, os, rfl⟩ := List.exists_cons_of_ne_nil hobs
  refine ⟨salvarTodas_fresh o os, ?_, by simp, fun mais rows => salvarTodas_some mais rows⟩
  rw [List.count_cons_self]
  have hzero : ((o :: os).map fun x => linhaCotacao x.1 x.2.1 x.2.2).count cabecalho = 0 := by
    rw [List.count_eq_zero]
    intro hmem
    obtain ⟨x, _, hEq⟩ := List.mem_map.mp hmem
    exact linhaCotacao_ne_cabecalho x.1 x.2.1 x.2.2 hEq
  omega

/-- Witness for C2 with a two-observation batch. -/
theorem c2_cabecalho_escrito_uma_vez_witness :
    salvarTodas [(⟨2025, 1, 1, 12, 0, 0⟩, "BTC", 1), (⟨2025, 1, 1, 12, 15, 0⟩, "ETH", 2)] none
        = some (cabecalho ::
            [(⟨2025, 1, 1, 12, 0, 0⟩, "BTC", (1 : ℚ)), (⟨2025, 1, 1, 12, 15, 0⟩, "ETH", 2)].map
              fun o => linhaCotacao o.1 o.2.1 o.2.2) ∧
    (cabecalho ::
        [(⟨2025, 1, 1, 12, 0, 0⟩, "BTC", (1 : ℚ)), (⟨2025, 1, 1, 12, 15, 0⟩, "ETH", 2)].map
          fun o => linhaCotacao o.1 o.2.1 o.2.2).count cabecalho = 1 ∧
    ([(⟨2025, 1, 1, 12, 0, 0⟩, "BTC", (1 : ℚ)), (⟨2025, 1, 1, 12, 15, 0⟩, "ETH", 2)].map
        fun o => linhaCotacao o.1 o.2.1 o.2.2).length
      = ([(⟨2025, 1, 1, 12, 0, 0⟩, "BTC", (1 : ℚ)), (⟨2025, 1, 1, 12, 15, 0⟩, "ETH", 2)] :
          List Observacao).length ∧
    ∀ (mais : List Observacao) (rows : List Row),
      salvarTodas mais (some rows)
        = some (rows ++ mais.map fun o => linhaCotacao o.1 o.2.1 o.2.2) :=
  c2_cabecalho_escrito_uma_vez
    [(⟨2025, 1, 1, 12, 0, 0⟩, "BTC", 1), (⟨2025, 1, 1, 12, 15, 0⟩, "ETH", 2)]
    (List.cons_ne_nil _ _)

/-- C3: the tolerant reader returns exactly the observations of the rows
whose three fields parse, in original file order, and inserting a malformed
row anywhere leaves the loaded history unchanged; the reader is a total
function, so no file content raises. -/
theorem c3_leitor_tolerante (fieldnames : List String) (rows antes depois : List Row)
    (ruim : Row) (hruim : parseLinha fieldnames ruim = none) :
    (carregar_historico (some (fieldnames :: rows))).length
        = rows.countP (fun r => (parseLinha fieldnames r).isSome) ∧
    carregar_historico (some (fieldnames :: rows))
        = (rows.filter fun r => (parseLinha fieldnames r).isSome).filterMap
            (parseLinha fieldnames) ∧
    carregar_historico (some (fieldnames :: (antes ++ ruim :: depois)))
        = carregar_historico (some (fieldnames :: (antes ++ depois))) := by
  refine ⟨length_filterMap_eq_countP _ rows, filterMap_eq_filter_filterMap _ rows, ?_⟩
  show (antes ++ ruim :: depois).filterMap (parseLinha fieldnames)
      = (antes ++ depois).filterMap (parseLinha fieldnames)
  rw [List.filterMap_append, List.filterMap_append, List.filterMap_cons, hruim]

/-- Witness for C3 at the specification's example file: one valid row, one
row malformed in both the timestamp and the price, one valid row. -/
theorem c3_leitor_tolerante_witness :
    (carregar_historico (some (cabecalho ::
          [["2025-01-01T12:00:00", "BTC", "50000.00"],
            ["data_invalida", "ETH", "preco_invalido"],
            ["2025-01-01T12:30:00", "BTC", "50100.25"]]))).length
        = ([["2025-01-01T12:00:00", "BTC", "50000.00"],
            ["data_invalida", "ETH", "preco_invalido"],
            ["2025-01-01T12:30:00", "BTC", "50100.25"]].countP
            fun r => (parseLinha cabecalho r).isSome) ∧
    carregar_historico (some (cabecalho ::
          [["2025-01-01T12:00:00", "BTC", "50000.00"],
            ["data_invalida", "ETH", "preco_invalido"],
            ["2025-01-01T12:30:00", "BTC", "50100.25"]]))
        = ([["2025-01-01T12:00:00", "BTC", "50000.00"],
            ["data_invalida", "ETH", "preco_invalido"],
            ["2025-01-01T12:30:00", "BTC", "50100.25"]].filter
            fun r => (parseLinha cabecalho r).isSome).filterMap (parseLinha cabecalho) ∧
    carregar_historico (some (cabecalho ::
          ([["2025-01-01T12:00:00", "BTC", "50000.00"]] ++
            ["data_invalida", "ETH", "preco_invalido"] ::
              [["2025-01-01T12:30:00", "BTC", "50100.25"]])))
        = carregar_historico (some (cabecalho ::
            ([["2025-01-01T12:00:00", "BTC", "50000.00"]] ++
              [["2025-01-01T12:30:00", "BTC", "50100.25"]]))) :=
  c3_leitor_tolerante cabecalho
    [["2025-01-01T12:00:00", "BTC", "50000.00"],
      ["data_invalida", "ETH", "preco_invalido"],
      ["2025-01-01T12:30:00", "BTC", "50100.25"]]
    [["2025-01-01T12:00:00", "BTC", "50000.00"]]
    [["2025-01-01T12:30:00", "BTC", "50100.25"]]
    ["data_invalida", "ETH", "preco_invalido"] rfl

/-- C4: loading a path that does not exist returns the empty history and,
being a total function of the file state, raises no error. -/
theorem c4_caminho_inexistente : carregar_historico none = [] := rfl

/-- C5: the store only appends: the prior file rows are a prefix of the
rows after any salvar_cotacao call, and every observation loadable before
the call is still loadable afterwards, in the same order, as a prefix of
the new history. -/
theorem c5_somente_anexa (t : DateTime) (moeda : String) (p : ℚ) :
    (∀ rows : List Row, rows <+: salvar_cotacao t moeda p (some rows)) ∧
    (∀ (fieldnames : List String) (resto : List Row),
      carregar_historico (some (fieldnames :: resto)) <+:
        carregar_historico (some (salvar_cotacao t moeda p (some (fieldnames :: resto))))) ∧
    carregar_historico none <+: carregar_historico (some (salvar_cotacao t moeda p none)) := by
  refine ⟨fun rows => ⟨[linhaCotacao t moeda p], rfl⟩, ?_, ⟨_, rfl⟩⟩
  intro fieldnames resto
  show carregar_historico (some (fieldnames :: resto)) <+:
    carregar_historico (some ((fieldnames :: resto) ++ [linhaCotacao t moeda p]))
  rw [List.cons_append]
  show resto.filterMap (parseLinha fieldnames) <+:
    (resto ++ [linhaCotacao t moeda p]).filterMap (parseLinha fieldnames)
  rw [List.filterMap_append]
  exact ⟨_, rfl⟩

/-- C6 counterexample: the reader does not enforce the nonnegative-price
invariant; a store file holding a data row with price field -1.00 loads to
an observation with a negative price. -/
theorem c6_preco_negativo_counterexample :
    carregar_historico (some [cabecalho, ["2025-01-01T12:00:00", "BTC", "-1.00"]])
        = [(⟨2025, 1, 1, 12, 0, 0⟩, "BTC", (-1 : ℚ))] ∧ ((-1 : ℚ) < 0) := by
  refine ⟨?_, by norm_num⟩
  have hp : parsePrice "-1.00" = some (-1 : ℚ) := by
    show (parseUnsigned ['1', '.', '0', '0']).map (fun q => -q) = some (-1 : ℚ)
    rw [show parseUnsigned ['1', '.', '0', '0']
        = some (((1 : ℕ) : ℚ) + ((0 : ℕ) : ℚ) / (10 : ℚ) ^ 2) from rfl]
    rw [Option.map_some']
    congr 1
    norm_num
  have hf : fromisoformat "2025-01-01T12:00:00" = some ⟨2025, 1, 1, 12, 0, 0⟩ := by
    decide
  have hrow : parseLinha cabecalho ["2025-01-01T12:00:00", "BTC", "-1.00"]
      = some (⟨2025, 1, 1, 12, 0, 0⟩, "BTC", (-1 : ℚ)) := by
    rw [parseLinha_cabecalho, hf, hp]
    rfl
  show [["2025-01-01T12:00:00", "BTC", "-1.00"]].filterMap (parseLinha cabecalho) = _
  simp [List.filterMap_cons, hrow]

/-- C6 amended: the store preserves nonnegativity rather than enforcing it:
every observation loaded back from a fresh store populated only through
salvar_cotacao with nonnegative prices has a nonnegative price. -/
theorem c6_preco_nao_negativo_amended (obs : List Observacao)
    (hpos : ∀ o ∈ obs, 0 ≤ o.2.2) :
    ∀ r ∈ carregar_historico (salvarTodas obs none), 0 ≤ r.2.2 := by
  cases obs with
  | nil => intro r hr; simp [salvarTodas, carregar_historico] at hr
  | cons o os =>
    intro r hr
    rw [salvarTodas_fresh] at hr
    have hr2 : r ∈ ((o :: os).map fun x => linhaCotacao x.1 x.2.1 x.2.2).filterMap
        (parseLinha cabecalho) := hr
    obtain ⟨row, hrowmem, hparse⟩ := List.mem_filterMap.mp hr2
    obtain ⟨x, hx, rfl⟩ := List.mem_map.mp hrowmem
    have hpx := hpos x hx
    rw [show linhaCotacao x.1 x.2.1 x.2.2
        = [x.1.isoformat, x.2.1, formatPrice2 x.2.2] from rfl] at hparse
    rw [parseLinha_cabecalho] at hparse
    rcases hiso : fromisoformat x.1.isoformat with _ | dt
    · rw [hiso] at hparse
      exact absurd hparse (by simp)
    · rw [hiso, parsePrice_formatPrice2 x.2.2 hpx] at hparse
      simp only [Option.some_bind] at hparse
      have hr3 := Option.some.inj hparse
      rw [← hr3]
      exact round2_nonneg x.2.2 hpx

/-- Witness for the amended C6: a one-observation store with price 1 loads
to an observation whose price is nonnegative. -/
theorem c6_preco_nao_negativo_amended_witness :
    (0 : ℚ) ≤ ((⟨2025, 1, 1, 12, 0, 0⟩, "BTC", round2 1) : Observacao).2.2 := by
  have hmem : ((⟨2025, 1, 1, 12, 0, 0⟩, "BTC", round2 1) : Observacao) ∈
      carregar_historico (salvarTodas [(⟨2025, 1, 1, 12, 0, 0⟩, "BTC", (1 : ℚ))] none) := by
    rw [salvarTodas_fresh]
    show _ ∈ [linhaCotacao ⟨2025, 1, 1, 12, 0, 0⟩ "BTC" 1].filterMap (parseLinha cabecalho)
    rw [List.filterMap_cons, parseLinha_linhaCotacao _ _ _ (by decide) (by norm_num)]
    exact List.mem_singleton.mpr rfl
  refine c6_preco_nao_negativo_amended [(⟨2025, 1, 1, 12, 0, 0⟩, "BTC", (1 : ℚ))] ?_ _ hmem
  intro o ho
  rw [List.mem_singleton] at ho
  subst ho
  norm_num

/-- C7 counterexample: a nonempty record set whose only symbol is DOGE
renders no line at all; the chart treats it as the no-data case, so the
renderer is restricted to the two symbols BTC and ETH. -/
theorem c7_simbolo_fora_do_par_counterexample :
    ([(⟨2025, 1, 1, 12, 0, 0⟩, "DOGE", (1 : ℚ))] : List Observacao) ≠ [] ∧
    exibir_grafico [(⟨2025, 1, 1, 12, 0, 0⟩, "DOGE", 1)] = SaidaGrafico.semDados ∧
    linhasDe (exibir_grafico [(⟨2025, 1, 1, 12, 0, 0⟩, "DOGE", 1)]) = [] :=
  ⟨List.cons_ne_nil _ _, rfl, rfl⟩

/-- C7 amended: the renderer partitions only the symbols BTC and ETH into
per-symbol series, sorts each series by timestamp ascending with a stable
merge sort, and renders one line per symbol of that pair with a nonempty
series; every other symbol is ignored, and a nonempty record set without
BTC or ETH observations renders nothing. -/
theorem c7_linhas_por_simbolo_amended (historico : List Observacao) :
    (∀ linha ∈ linhasDe (exibir_grafico historico),
        (linha.1 = "BTC" ∨ linha.1 = "ETH") ∧
        linha.2.Perm (pontosDe linha.1 historico) ∧
        linha.2.Pairwise fun x y => DateTime.leB x.1 y.1 = true) ∧
    (pontosDe "BTC" historico ≠ [] →
      ("BTC", ordenarPorTempo (pontosDe "BTC" historico))
        ∈ linhasDe (exibir_grafico historico)) ∧
    (pontosDe "ETH" historico ≠ [] →
      ("ETH", ordenarPorTempo (pontosDe "ETH" historico))
        ∈ linhasDe (exibir_grafico historico)) ∧
    ((∀ o ∈ historico, o.2.1 ≠ "BTC" ∧ o.2.1 ≠ "ETH") →
      exibir_grafico historico = SaidaGrafico.semDados) := by
  have hEg : exibir_grafico historico
      = if pontosDe "BTC" historico = [] ∧ pontosDe "ETH" historico = [] then
          SaidaGrafico.semDados
        else
          SaidaGrafico.grafico
            ((if pontosDe "BTC" historico = [] then []
              else [("BTC", ordenarPorTempo (pontosDe "BTC" historico))]) ++
              (if pontosDe "ETH" historico = [] then []
                else [("ETH", ordenarPorTempo (pontosDe "ETH" historico))])) := rfl
  have hsorted : ∀ s : List (DateTime × ℚ),
      (ordenarPorTempo s).Pairwise fun x y => DateTime.leB x.1 y.1 = true :=
    fun s => List.sorted_mergeSort
      (fun a b c h1 h2 => leB_trans a.1 b.1 c.1 h1 h2)
      (fun a b => leB_total a.1 b.1) s
  have hperm : ∀ s : List (DateTime × ℚ), (ordenarPorTempo s).Perm s :=
    fun s => List.mergeSort_perm s _
  have hnone : ∀ m : String, (∀ o ∈ historico, o.2.1 ≠ m) → pontosDe m historico = [] := by
    intro m hm
    refine List.filterMap_eq_nil_iff.mpr fun o ho => ?_
    rw [if_neg (hm o ho)]
  refine ⟨?_, ?_, ?_, ?_⟩
  · intro linha hlinha
    rw [hEg] at hlinha
    have hcases : linha = ("BTC", ordenarPorTempo (pontosDe "BTC" historico)) ∨
        linha = ("ETH", ordenarPorTempo (pontosDe "ETH" historico)) := by
      by_cases hb : pontosDe "BTC" historico = [] <;>
        by_cases he : pontosDe "ETH" historico = [] <;>
          simp only [hb, he, eq_self_iff_true, true_and, and_true, false_and, and_false,
            and_self, if_true, if_false, linhasDe, List.nil_append, List.append_nil,
            List.mem_singleton, List.mem_append, List.not_mem_nil, or_false,
            false_or] at hlinha <;>
        tauto
    rcases hcases with rfl | rfl
    · exact ⟨Or.inl rfl, hperm _, hsorted _⟩
    · exact ⟨Or.inr rfl, hperm _, hsorted _⟩
  · intro hb
    rw [hEg, if_neg (fun hx => hb hx.1), if_neg hb]
    exact List.mem_append_left _ (List.mem_singleton.mpr rfl)
  · intro he
    rw [hEg, if_neg (fun hx => he hx.2), if_neg he]
    exact List.mem_append_right _ (List.mem_singleton.mpr rfl)
  · intro hall
    rw [hEg, if_pos ⟨hnone "BTC" fun o ho => (hall o ho).1,
      hnone "ETH" fun o ho => (hall o ho).2⟩]

/-- Witness for the amended C7: a single BTC observation yields the BTC
line among the rendered lines. -/
theorem c7_linhas_por_simbolo_amended_witness :
    ("BTC", ordenarPorTempo (pontosDe "BTC" [(⟨2025, 1, 1, 12, 0, 0⟩, "BTC", (1 : ℚ))]))
      ∈ linhasDe (exibir_grafico [(⟨2025, 1, 1, 12, 0, 0⟩, "BTC", 1)]) :=
  (c7_linhas_por_simbolo_amended [(⟨2025, 1, 1, 12, 0, 0⟩, "BTC", 1)]).2.1
    (by
      rw [show pontosDe "BTC" [((⟨2025, 1, 1, 12, 0, 0⟩ : DateTime), "BTC", (1 : ℚ))]
          = [(⟨2025, 1, 1, 12, 0, 0⟩, (1 : ℚ))] from rfl]
      exact List.cons_ne_nil _ _)

/-- C8: on the empty record set the renderer reports the no-data outcome,
draws no line and produces no image, returning without error. -/
theorem c8_conjunto_vazio_sem_grafico :
    exibir_grafico [] = SaidaGrafico.semDados ∧ linhasDe (exibir_grafico []) = [] :=
  ⟨rfl, rfl⟩

/-- C9 counterexample: in one monitoring cycle with two returned pairs the
clock is read exactly once, not once per pair, and that single read is the
first event of the cycle, before the price fetch. -/
theorem c9_relogio_antes_da_busca_counterexample :
    cicloMonitoramento ⟨2025, 1, 1, 12, 0, 0⟩ [("BTC", 1), ("ETH", 2)]
        = [Evento.lerRelogio ⟨2025, 1, 1, 12, 0, 0⟩,
            Evento.buscarPrecos [("BTC", 1), ("ETH", 2)],
            Evento.salvarEvt ⟨2025, 1, 1, 12, 0, 0⟩ "BTC" 1,
            Evento.salvarEvt ⟨2025, 1, 1, 12, 0, 0⟩ "ETH" 2] ∧
    (cicloMonitoramento ⟨2025, 1, 1, 12, 0, 0⟩ [("BTC", 1), ("ETH", 2)]).countP
        (fun e => e.eLeituraRelogio) = 1 ∧
    ([("BTC", (1 : ℚ)), ("ETH", 2)] : List (String × ℚ)).length = 2 ∧ (1 : ℕ) ≠ 2 ∧
    (cicloMonitoramento ⟨2025, 1, 1, 12, 0, 0⟩ [("BTC", 1), ("ETH", 2)]).head?
        = some (Evento.lerRelogio ⟨2025, 1, 1, 12, 0, 0⟩) :=
  ⟨rfl, rfl, rfl, by omega, rfl⟩

/-- C9 amended: each cycle reads the clock exactly once, as its first step
and before the price fetch, and then appends one observation per returned
pair, in order, all carrying that single pre-fetch timestamp. -/
theorem c9_horario_compartilhado_amended (agora : DateTime)
    (precos : List (String × ℚ)) :
    (cicloMonitoramento agora precos).head? = some (Evento.lerRelogio agora) ∧
    (cicloMonitoramento agora precos)[1]? = some (Evento.buscarPrecos precos) ∧
    (cicloMonitoramento agora precos).filterMap Evento.salvo
        = precos.map (fun mp => (agora, mp.1, mp.2)) ∧
    (cicloMonitoramento agora precos).countP (fun e => e.eLeituraRelogio) = 1 := by
  refine ⟨rfl, by simp [cicloMonitoramento], ?_, ?_⟩
  · show (precos.map fun mp => Evento.salvarEvt agora mp.1 mp.2).filterMap Evento.salvo = _
    induction precos with
    | nil => rfl
    | cons mp rest ih =>
      simp only [List.map_cons, List.filterMap_cons, Evento.salvo, ih]
  · show List.countP _ (Evento.lerRelogio agora :: Evento.buscarPrecos precos ::
      precos.map fun mp => Evento.salvarEvt agora mp.1 mp.2) = 1
    rw [List.countP_cons, List.countP_cons]
    have hzero : (precos.map fun mp => Evento.salvarEvt agora mp.1 mp.2).countP
        (fun e => e.eLeituraRelogio) = 0 := by
      rw [List.countP_eq_zero]
      intro e he
      obtain ⟨mp, _, rfl⟩ := List.mem_map.mp he
      simp [Evento.eLeituraRelogio]
    simp [hzero, Evento.eLeituraRelogio]

/-- C10: a file that exists but has no data rows, whether zero-byte or
holding only the header line, loads to the empty history without error. -/
theorem c10_arquivo_existente_vazio (fieldnames : List String) :
    carregar_historico (some []) = [] ∧ carregar_historico (some [fieldnames]) = [] :=
  ⟨rfl, rfl⟩

end MonitorCripto
